import Mathlib

/-!
Shallow embedding of `horton/scripts/common.py` (result-persistence helpers):
`parse_h5`, `check_output`, `store_args`, `safe_open_h5`, `write_part_output`
and `write_script_output`, together with the store model they act on.

The HDF5 store is modelled as a tree of groups and scalar datasets.  A group
keeps its children as an association list with unique names (h5py links) and
its attributes as a finite partial map `String → Option AVal`.  The open file
`f` is identified with the child list of its root group: for plain (slash-free)
names, `key in f`, `f[key]` and `del f[key]` all act on that list.

External collaborators (h5py open, `numpy.random.uniform`, the horton library
functions `dump_hdf5_low` and the `part.cache` object, `sys.argv`, `os.getcwd`,
`datetime.now`) are passed in as explicit parameters, so every embedded
function is a pure state transformer returning `Except`; an error value also
carries the file state at the moment the Python exception is raised, because
h5py mutations performed before the exception persist on disk.
-/

namespace Horton

/-- Attribute values stored on a group (`grp.attrs[...] = v`): small scalars
or strings. -/
inductive AVal where
  | str (s : String)
  | int (n : Int)
deriving DecidableEq

/-- Attribute map of a group: attribute name to value. -/
abbrev Attrs := String → Option AVal

/-- The empty attribute map (a freshly created group has no attributes). -/
def noAttrs : Attrs := fun _ => none

/-- A node of the HDF5 hierarchy: a dataset holding a scalar value, or a group
with an ordered association list of uniquely named children and an attribute
map. -/
inductive Node where
  | dataset (v : Int)
  | group (children : List (String × Node)) (attrs : Attrs)

/-- An open HDF5 file, seen as the association list of children of its root
group. -/
abbrev File := List (String × Node)

/-- Python exceptions surfaced by the embedded code. -/
inductive PyErr where
  | keyError (k : String)
  | typeError
  | valueError (m : String)
  | serializationError (m : String)
  | existsError (k : String)
deriving DecidableEq

/-- `f[key]` for a plain name: the first child of the root with that name,
if any. -/
def getRoot : File → String → Option Node
  | [], _ => none
  | p :: f, g => if p.1 = g then some p.2 else getRoot f g

/-- `key in f` for a plain name. -/
def memRoot : File → String → Bool
  | [], _ => false
  | p :: f, g => p.1 == g || memRoot f g

/-- Replace the node linked under `k` at the root (or append a fresh link when
the name is absent). -/
def setRoot : File → String → Node → File
  | [], g, n => [(g, n)]
  | p :: f, g, n => if p.1 = g then (g, n) :: f else p :: setRoot f g n

/-- `del f[key]`: Python raises `KeyError` when the name is absent.  The error
value carries the unchanged file. -/
def delRoot (f : File) (g : String) : Except (PyErr × File) File :=
  if memRoot f g then .ok (f.filter (fun p => decide (p.1 ≠ g)))
  else .error (.keyError g, f)

/-- Child names of the group linked under `g` at the root (`f[g].keys()`),
when that node is a group. -/
def childNames (f : File) (g : String) : Option (List String) :=
  match getRoot f g with
  | some (.group cs _) => some (cs.map (fun p => p.1))
  | _ => none

/-! ### `parse_h5` (source lines 114-145)

Locations are modelled as lists of characters; `splitColon` is Python's
`s.split(freeColon)` and `countColon` is `s.count(freeColon)` for the colon
separator. -/

/-- Python `s.count` for the colon character. -/
def countColon : List Char → Nat
  | [] => 0
  | c :: rest => (if c = ':' then 1 else 0) + countColon rest

/-- Python `s.split` at every colon: always returns `count + 1` parts. -/
def splitColon : List Char → List (List Char)
  | [] => [[]]
  | c :: rest =>
    match splitColon rest with
    | [] => [[c]]
    | p :: ps => if c = ':' then [] :: p :: ps else (c :: p) :: ps

/-- Rejoin the parts produced by `splitColon` with colons. -/
def joinColon : List (List Char) → List Char
  | [] => []
  | [p] => p
  | p :: q :: ps => p ++ ':' :: joinColon (q :: ps)

/-- Shallow embedding of `parse_h5(arg_h5, name, path_optional)`.  In the
branches guarded by `count = 1` the source returns the two parts of
`arg_h5.split(colon)`; the wildcard arm is unreachable there because the split
of a one-colon string has exactly two parts. -/
def parse_h5 (argH5 : List Char) (name : String) (pathOptional : Bool) :
    Except PyErr (List Char × List Char) :=
  if pathOptional then
    if countColon argH5 = 1 then
      match splitColon argH5 with
      | [a, b] => .ok (a, b)
      | _ => .error .typeError
    else if countColon argH5 = 0 then .ok (argH5, ['/'])
    else .error (.valueError
        ("The hdf5 argument " ++ name ++ " must contain at most one colon."))
  else
    if countColon argH5 = 1 then
      match splitColon argH5 with
      | [a, b] => .ok (a, b)
      | _ => .error .typeError
    else .error (.valueError
        ("The hdf5 argument " ++ name ++ " must contain one colon."))

/-! ### `check_output` (source lines 148-174) -/

/-- Python 2 value of the guard subexpression `len(f[grp_name] > 0)` from
`check_output` line 165.  As written (the intended expression was presumably
`len(f[grp_name]) > 0`), `f[grp_name] > 0` compares an h5py node object with
the integer `0`; h5py nodes define no ordering against integers, so CPython 2
default cross-type ordering yields the boolean `True` (for a scalar dataset,
`numpy` yields an unsized 0-d boolean), and `len` applied to either operand
raises `TypeError`. -/
def lenOfNodeGtZero : Node → Except PyErr Nat
  | .group _ _ => .error .typeError
  | .dataset _ => .error .typeError

/-- Shallow embedding of `check_output(fn_h5, grp_name, overwrite)`.  The
store argument is `none` when `os.path.isfile(fn_h5)` is false, otherwise the
contents of the file as opened read-only through `safe_open_h5`.  Returns the
skip decision, or the exception the guard expression raises. -/
def check_output (store : Option File) (grpName : String) (overwrite : Bool) :
    Except PyErr Bool :=
  match store with
  | none => .ok false
  | some f =>
    match getRoot f grpName with
    | none => .ok false
    | some n =>
      match lenOfNodeGtZero n with
      | .error e => .error e
      | .ok l =>
        if 0 < l then
          if overwrite then .ok false else .ok true
        else .ok false

/-! ### `store_args` (source lines 195-202) -/

/-- Ambient process state read by `store_args`: `sys.argv`, `os.getcwd()` and
`datetime.datetime.now().isoformat()`. -/
structure Env where
  argv : List String
  pwd : String
  datetime : String

/-- `grp.attrs[k] = v`: overwrite or create attribute `k`. -/
def setAttr (a : Attrs) (k : String) (v : AVal) : Attrs :=
  fun q => if q = k then some v else a q

/-- The attribute name `arg_<key>` used for recorded command line options. -/
def argAttr (k : String) : String := "arg_" ++ k

/-- The loop over `vars(args).iteritems()` in `store_args`: record each
non-null entry under `arg_<key>`, skip null entries. -/
def argsLoop : List (String × Option AVal) → Attrs → Attrs
  | [], a => a
  | (_, none) :: rest, a => argsLoop rest a
  | (k, some v) :: rest, a => argsLoop rest (setAttr a (argAttr k) v)

/-- Shallow embedding of `store_args(args, grp)` acting on the attribute map
of `grp`: stamp `cmdline`, `pwd`, `datetime`, then record the non-null
argument entries. -/
def store_args (env : Env) (argsRec : List (String × Option AVal)) (a : Attrs) :
    Attrs :=
  argsLoop argsRec
    (setAttr (setAttr (setAttr a
      "cmdline" (.str (String.intercalate " " env.argv)))
      "pwd" (.str env.pwd))
      "datetime" (.str env.datetime))

/-! ### `safe_open_h5` (source lines 205-235)

The h5py open call is a collaborator: `openR i` is the outcome of the
`(i+1)`-th call to `h5.File(...)`, and `rand i` is the value
`numpy.random.uniform(0, wait)` would draw after a failure of attempt `i`
(boundedness of the draw is a hypothesis on `rand` in the theorems).  The
loop returns the final outcome, the number of open attempts performed, and
the list of sleep durations in order. -/

/-- The `while True` retry loop of `safe_open_h5`: try to open; on failure
decrement the counter, re-raise when the counter has reached zero, otherwise
sleep a random duration and retry.  The loop is indexed by `retries`, the
number of re-attempts still allowed, which is `counter - 1` for the current
value of the source's decrementing counter: after a failure the source
re-raises exactly when `counter - 1 <= 0`, i.e. when `retries = 0`.  `i` is
the index of the current attempt and `sleeps` accumulates the performed
sleeps. -/
def safeOpenGo {E H : Type} (openR : Nat → Except E H) (rand : Nat → ℚ) :
    Nat → Nat → List ℚ → Except E H × Nat × List ℚ
  | retries, i, sleeps =>
    match openR i with
    | .ok h => (.ok h, i + 1, sleeps)
    | .error e =>
      match retries with
      | 0 => (.error e, i + 1, sleeps)
      | r + 1 => safeOpenGo openR rand r (i + 1) (sleeps ++ [rand i])

/-- Shallow embedding of the acquisition phase of `safe_open_h5` with `count`
attempts (`count` is the `count` keyword argument, default 10): result, number
of attempts made, sleeps performed. -/
def safe_open_h5 {E H : Type} (openR : Nat → Except E H) (rand : Nat → ℚ)
    (count : Nat) : Except E H × Nat × List ℚ :=
  safeOpenGo openR rand (count - 1) 0 []

/-- Shallow embedding of `with safe_open_h5(...) as f: body`: the generator
yields the handle inside `try: yield f / finally: f.close()`, so the handle is
closed after the body both on normal completion and on an exception raised by
the body.  The second component lists the handles that were closed, in
order. -/
def withSafeOpenH5 {E H A : Type} (openR : Nat → Except E H) (rand : Nat → ℚ)
    (count : Nat) (body : H → Except E A) : Except E A × List H :=
  match (safe_open_h5 openR rand count).1 with
  | .error e => (.error e, [])
  | .ok h =>
    match body h with
    | .ok a => (.ok a, [h])
    | .error e => (.error e, [h])

/-! ### the writers (source lines 238-322)

Modelled from the spec: `dump_hdf5_low`, the value-dumping collaborator
imported from the horton library, "recursively materialize a
scalar/array/nested-mapping value under a named child of a group".  It is
passed in as a parameter `ser : Int → Except PyErr Node` giving, for each
Python value, either its serialized node or the serialization failure; the
write of the resulting node under the requested name is `dumpInto`.  Likewise
`part.cache`, the cache collaborator, is passed as its list of keys
(components already stringified) plus a load function, and the `log` calls
are omitted (pure observers). -/

/-- Write one serialized node under name `k` of the group linked at root name
`g` (the effect of one `dump_hdf5_low(grp, k, value)` call after successful
serialization).  Creating a child under an already used name is an h5py
error. -/
def dumpInto (f : File) (g k : String) (n : Node) : Except (PyErr × File) File :=
  match getRoot f g with
  | some (.group cs ats) =>
    if cs.any (fun p => p.1 == k) then .error (.existsError k, f)
    else .ok (setRoot f g (.group (cs ++ [(k, n)]) ats))
  | _ => .error (.keyError g, f)

/-- The serialization loop shared by both writers: dump each named value in
order into the group at root name `g`; the first failure propagates, leaving
the writes already performed in place. -/
def dumpAll (ser : Int → Except PyErr Node) (g : String) :
    File → List (String × Int) → Except (PyErr × File) File
  | f, [] => .ok f
  | f, (k, v) :: rest =>
    match ser v with
    | .error e => .error (e, f)
    | .ok n =>
      match dumpInto f g k n with
      | .ok f2 => dumpAll ser g f2 rest
      | .error e => .error e

/-- The clearing loop `for key in grp.keys(): del f[key]` of both writers:
note that it deletes at the FILE ROOT (`del f[key]`), not inside `grp`. -/
def delKeys : File → List String → Except (PyErr × File) File
  | f, [] => .ok f
  | f, k :: ks =>
    match delRoot f k with
    | .ok f2 => delKeys f2 ks
    | .error e => .error e

/-- `store_args(args, grp)` applied to the group linked at root name `g`. -/
def storeArgsAt (env : Env) (argsRec : List (String × Option AVal))
    (f : File) (g : String) : Except (PyErr × File) File :=
  match getRoot f g with
  | some (.group cs ats) => .ok (setRoot f g (.group cs (store_args env argsRec ats)))
  | _ => .error (.keyError g, f)

/-- Shallow embedding of `write_script_output(fn_h5, grp_name, results, args)`
acting on the already opened file `f`: clear-or-create phase (with the
root-level deletes of the source), then the dump loop, then provenance
stamping. -/
def write_script_output (ser : Int → Except PyErr Node) (env : Env)
    (grpName : String) (results : List (String × Int))
    (argsRec : List (String × Option AVal)) (f : File) :
    Except (PyErr × File) File :=
  match
    ((if memRoot f grpName then
      match getRoot f grpName with
      | some (.group cs _) => delKeys f (cs.map (fun p => p.1))
      | some (.dataset _) => .error (.typeError, f)
      | none => .error (.keyError grpName, f)
    else .ok (setRoot f grpName (.group [] noAttrs))) :
      Except (PyErr × File) File) with
  | .error e => .error e
  | .ok f1 =>
    match dumpAll ser grpName f1 results with
    | .error e => .error e
    | .ok f2 => storeArgsAt env argsRec f2 grpName

/-- The synthesized debug attribute name: key components joined by
underscore, as in the source expression joining `str(x)` over the key
components. -/
def debugName (k : List String) : String := String.intercalate "_" k

/-- The loop over `part.cache.iterkeys()` inside the debug block of
`write_part_output`: skip a key whose synthesized name is in `names`,
otherwise create the dataset in the debug subgroup (Python raises when the
name was already created by an earlier key).  On error the partially built
child list accompanies the exception. -/
def debugFold (names : List String) (load : List String → Int) :
    List (String × Node) → List (List String) →
    Except (PyErr × List (String × Node)) (List (String × Node))
  | dcs, [] => .ok dcs
  | dcs, k :: ks =>
    if names.contains (debugName k) then debugFold names load dcs ks
    else if dcs.any (fun p => p.1 == debugName k) then
      .error (.existsError (debugName k), dcs)
    else debugFold names load (dcs ++ [(debugName k, .dataset (load k))]) ks

/-- The debug block of `write_part_output` (source lines 275-283), executed on
the group linked at root name `g` when `args.debug` is set: delete any
pre-existing `debug` child, create a fresh `debug` subgroup, then dump the
non-colliding cache entries into it. -/
def debugDump (cacheKeys : List (List String)) (load : List String → Int)
    (names : List String) (f : File) (g : String) : Except (PyErr × File) File :=
  match getRoot f g with
  | some (.group cs ats) =>
    let cs1 := cs.filter (fun p => p.1 != "debug")
    match debugFold names load [] cacheKeys with
    | .ok dcs =>
      .ok (setRoot f g (.group (cs1 ++ [("debug", .group dcs noAttrs)]) ats))
    | .error (e, dcs) =>
      .error (e, setRoot f g (.group (cs1 ++ [("debug", .group dcs noAttrs)]) ats))
  | _ => .error (.keyError g, f)

/-- The child list the debug loop is proved to build (the characterization
established by the C7 theorem): the non-colliding cache keys, in cache order,
each mapped to its synthesized name and loaded value. -/
def debugChildrenSpec (cacheKeys : List (List String))
    (load : List String → Int) (names : List String) : List (String × Node) :=
  (cacheKeys.filter (fun k => !names.contains (debugName k))).map
    (fun k => (debugName k, .dataset (load k)))

/-- Shallow embedding of `write_part_output(fn_h5, grp_name, part, names,
args)` acting on the already opened file `f`.  The source line 264 reads
`grp = f[quoted grp_name]` with the group name QUOTED, so when `grp_name` is
present the lookup targets a node literally named `grp_name`, and all later
phases operate on that name.  `part` gives `part[name]` for the dumped names,
`debug` is the `args.debug` flag, and the cache collaborator is as in
`debugDump`. -/
def write_part_output (ser : Int → Except PyErr Node) (env : Env)
    (grpName : String) (part : String → Int) (names : List String)
    (argsRec : List (String × Option AVal)) (debug : Bool)
    (cacheKeys : List (List String)) (load : List String → Int) (f : File) :
    Except (PyErr × File) File :=
  match
    ((if memRoot f grpName then
      match getRoot f "grp_name" with
      | some (.group cs _) =>
        (delKeys f (cs.map (fun p => p.1))).map (fun f2 => (f2, "grp_name"))
      | some (.dataset _) => .error (.typeError, f)
      | none => .error (.keyError "grp_name", f)
    else .ok (setRoot f grpName (.group [] noAttrs), grpName)) :
      Except (PyErr × File) (File × String)) with
  | .error e => .error e
  | .ok fg =>
    match dumpAll ser fg.2 fg.1 (names.map (fun n => (n, part n))) with
    | .error e => .error e
    | .ok f2 =>
      match storeArgsAt env argsRec f2 fg.2 with
      | .error e => .error e
      | .ok f3 =>
        if debug then debugDump cacheKeys load names f3 fg.2 else .ok f3

/-! ### Concrete collaborators used by the evaluation theorems and witnesses -/

/-- A concrete serializer: every value is dumped as a scalar dataset, except
the sentinel value `99`, which the dumping collaborator rejects. -/
def serW : Int → Except PyErr Node := fun v =>
  if v = 99 then .error (.serializationError "unsupported value")
  else .ok (.dataset v)

/-- A concrete ambient environment for evaluation. -/
def envW : Env :=
  { argv := ["horton-script.py", "in.cube", "out.h5"]
    pwd := "/data/run1"
    datetime := "2026-10-12T00:00:00" }

/-- A store holding a group `res` with one child `a` (and no root-level link
named `a` and no node literally named `grp_name`). -/
def fC2 : File := [("res", .group [("a", .dataset 1)] noAttrs)]

/-! ### Theorems -/

/-- Claim C1: stated, `check_output` returns `skip = true` iff the store file
exists, the group exists, is non-empty, and `overwrite` is false, and
`skip = false` in every other combination.  The code refutes this: line 165
tests `len` applied to the comparison of the group object with `0`
(misparenthesized), which under Python 2 raises `TypeError` whenever the group
(or a dataset of that name) exists — empty or not, `overwrite` or not.  Only
the missing-file and missing-group cases behave as claimed.  This theorem
evaluates the embedded code on the failing inputs and on the two conforming
ones. -/
theorem check_output_bug_eval :
    check_output (some [("res", .group [("x", .dataset 1)] noAttrs)]) "res" false
      = .error .typeError ∧
    check_output (some [("res", .group [("x", .dataset 1)] noAttrs)]) "res" true
      = .error .typeError ∧
    check_output (some [("res", .group [] noAttrs)]) "res" false
      = .error .typeError ∧
    check_output (some []) "res" false = .ok false ∧
    check_output none "res" false = .ok false :=
  ⟨rfl, rfl, rfl, rfl, rfl⟩

/-- Claim C2: stated, when the target group exists both writers delete exactly
the children of that group before writing.  The code refutes this: in
`write_part_output` line 264 the lookup `f[...]` uses the QUOTED string
`grp_name`, raising `KeyError` on any file without a node of that literal
name; and in both writers the clearing loop runs `del f[key]` at the file
root instead of `del grp[key]`, here raising `KeyError` on the group child
name `a`, which is not a root-level link.  Evaluation of both writers on a
file whose group `res` has the single child `a`. -/
theorem write_clear_bug_eval :
    write_part_output serW envW "res" (fun _ => 0) [] [] false [] (fun _ => 0) fC2
      = .error (.keyError "grp_name", fC2) ∧
    write_script_output serW envW "res" [("c", 1)] [] fC2
      = .error (.keyError "a", fC2) :=
  ⟨rfl, rfl⟩

/-- Claim C3: stated, writing `c = 1` over a group that previously received a
successful write of `a = 1, b = 2` leaves the children exactly `c`.  The code
refutes this for any non-root group: the second `write_script_output` call
runs `del f[key]` at the file root for the group children `a` and `b`, raises
`KeyError` on `a`, and leaves the stale children `a` and `b` in place. -/
theorem write_idempotence_bug_eval :
    ∃ f1,
      write_script_output serW envW "res" [("a", 1), ("b", 2)] [] [] = .ok f1 ∧
      write_script_output serW envW "res" [("c", 1)] [] f1
        = .error (.keyError "a", f1) ∧
      childNames f1 "res" = some ["a", "b"] :=
  ⟨_, rfl, rfl, rfl⟩

/-- All-failure characterization of the retry loop: when every open attempt
fails, the loop performs `retries + 1` attempts starting at attempt `i`,
sleeps once after every attempt but the last, and returns the outcome of the
last attempt. -/
theorem safeOpenGo_fail {E H : Type} (openR : Nat → Except E H) (rand : Nat → ℚ)
    (hfail : ∀ i, ∃ e, openR i = .error e) :
    ∀ (retries i : Nat) (sleeps : List ℚ),
      safeOpenGo openR rand retries i sleeps
        = (openR (i + retries), i + retries + 1,
           sleeps ++ (List.range retries).map (fun j => rand (i + j))) := by
  intro retries
  induction retries with
  | zero =>
    intro i sleeps
    obtain ⟨e, he⟩ := hfail i
    rw [safeOpenGo, he]
    simp [he]
  | succ r ih =>
    intro i sleeps
    obtain ⟨e, he⟩ := hfail i
    rw [safeOpenGo, he]
    dsimp only
    rw [ih (i + 1) (sleeps ++ [rand i])]
    refine congrArg₂ _ (by rw [Nat.add_assoc, Nat.add_comm 1 r]) ?_
    refine congrArg₂ _ (by omega) ?_
    rw [List.append_assoc, List.range_succ_eq_map, List.map_cons, List.map_map]
    simp only [Nat.add_zero, List.singleton_append]
    refine congrArg _ (congrArg _ (List.map_congr_left ?_))
    intro j _
    simp only [Function.comp_apply]
    exact congrArg rand (by omega)

/-- Claim C4: for every `count >= 1`, if every open attempt fails,
`safe_open_h5` performs exactly `count` attempts, re-raises the failure of the
last attempt, and sleeps exactly `count - 1` times, each slept duration (a
`numpy.random.uniform(0, wait)` draw) lying in `[0, wait]`. -/
theorem safe_open_h5_exhausts_attempts {E H : Type} (openR : Nat → Except E H)
    (err : Nat → E) (rand : Nat → ℚ) (wait : ℚ) (count : Nat)
    (hcount : 1 ≤ count) (hopen : ∀ i, openR i = .error (err i))
    (hrand : ∀ i, 0 ≤ rand i ∧ rand i ≤ wait) :
    safe_open_h5 openR rand count
      = (.error (err (count - 1)), count, (List.range (count - 1)).map rand) ∧
    ((List.range (count - 1)).map rand).length = count - 1 ∧
    (∀ d ∈ (List.range (count - 1)).map rand, 0 ≤ d ∧ d ≤ wait) := by
  refine ⟨?_, by simp, ?_⟩
  · have h := safeOpenGo_fail openR rand (fun i => ⟨err i, hopen i⟩) (count - 1) 0 []
    unfold safe_open_h5
    rw [h, hopen]
    simp only [Nat.zero_add, List.nil_append]
    have hc : count - 1 + 1 = count := by omega
    rw [hc]
  · intro d hd
    simp only [List.mem_map, List.mem_range] at hd
    obtain ⟨j, _, rfl⟩ := hd
    exact hrand j

/-- Witness for C4 at `count = 3` with attempt `i` failing with error code `i`
and every draw equal to `1`: three attempts, the last failure `2` re-raised,
two sleeps both in `[0, 10]`. -/
theorem safe_open_h5_exhausts_attempts_witness :
    safe_open_h5 (fun i => (.error i : Except Nat Unit)) (fun _ => (1 : ℚ)) 3
      = (.error 2, 3, [1, 1]) := by
  have h := safe_open_h5_exhausts_attempts
    (fun i => (.error i : Except Nat Unit)) (fun i => i) (fun _ => (1 : ℚ)) 10 3
    (by omega) (fun i => rfl) (fun i => ⟨by norm_num, by norm_num⟩)
  rw [h.1]
  rfl

/-- Claim C10: the bare `except:` of `safe_open_h5` retries on every kind of
open failure, not only transient ones: for ANY error type and ANY family of
failures (for example a permanently missing file opened read-only), the loop
still consumes the full attempt budget with its `count - 1` sleeps and then
propagates the outcome of the last open call unchanged. -/
theorem safe_open_h5_retries_every_failure {E H : Type} (openR : Nat → Except E H)
    (rand : Nat → ℚ) (count : Nat) (hcount : 1 ≤ count)
    (hfail : ∀ i, ∃ e, openR i = .error e) :
    (safe_open_h5 openR rand count).1 = openR (count - 1) ∧
    (safe_open_h5 openR rand count).2.1 = count ∧
    (safe_open_h5 openR rand count).2.2 = (List.range (count - 1)).map rand := by
  have h := safeOpenGo_fail openR rand hfail (count - 1) 0 []
  unfold safe_open_h5
  rw [h]
  refine ⟨by simp, by simp; omega, by simp⟩

/-- Witness for C10 at `count = 2` with a fixed permanent failure (the same
error value on every attempt): two attempts, one sleep, the error
propagated. -/
theorem safe_open_h5_retries_every_failure_witness :
    (safe_open_h5 (fun _ => (.error "no such file" : Except String Unit))
        (fun _ => (0 : ℚ)) 2).1 = .error "no such file" ∧
    (safe_open_h5 (fun _ => (.error "no such file" : Except String Unit))
        (fun _ => (0 : ℚ)) 2).2.1 = 2 ∧
    (safe_open_h5 (fun _ => (.error "no such file" : Except String Unit))
        (fun _ => (0 : ℚ)) 2).2.2 = [0] := by
  have h := safe_open_h5_retries_every_failure
    (fun _ => (.error "no such file" : Except String Unit)) (fun _ => (0 : ℚ)) 2
    (by omega) (fun i => ⟨"no such file", rfl⟩)
  exact ⟨h.1, h.2.1, by rw [h.2.2]; rfl⟩

/-- Claim C5: once acquisition through `safe_open_h5` succeeds with handle
`hh`, the scope closes the handle exactly once on every exit path — the
closed-handle list is `[hh]` — and the body outcome (normal value or raised
exception) is propagated unchanged. -/
theorem with_safe_open_h5_closes_once {E H A : Type} (openR : Nat → Except E H)
    (rand : Nat → ℚ) (count : Nat) (hh : H)
    (hacq : (safe_open_h5 openR rand count).1 = .ok hh) (body : H → Except E A) :
    withSafeOpenH5 openR rand count body = (body hh, [hh]) := by
  unfold withSafeOpenH5
  rw [hacq]
  dsimp only
  cases body hh <;> rfl

/-- Witness for C5: acquisition succeeds immediately with handle `5`; both a
normally returning body and a raising body leave the closed-handle list
`[5]`. -/
theorem with_safe_open_h5_closes_once_witness :
    withSafeOpenH5 (fun _ => (.ok 5 : Except Nat Nat)) (fun _ => (0 : ℚ)) 3
        (fun h => .ok (h + 1)) = (.ok 6, [5]) ∧
    withSafeOpenH5 (fun _ => (.ok 5 : Except Nat Nat)) (fun _ => (0 : ℚ)) 3
        (fun _ => (.error 7 : Except Nat Nat)) = (.error 7, [5]) := by
  constructor
  · exact with_safe_open_h5_closes_once (fun _ => .ok 5) (fun _ => (0 : ℚ)) 3 5 rfl
      (fun h => .ok (h + 1))
  · exact with_safe_open_h5_closes_once (fun _ => .ok 5) (fun _ => (0 : ℚ)) 3 5 rfl
      (fun _ => (.error 7 : Except Nat Nat))

/-- The synthesized argument attribute name starts with the letter `a`. -/
theorem argAttr_head (k : String) : (argAttr k).data.head? = some 'a' := by
  simp [argAttr, String.data_append]

/-- Distinct argument names give distinct `arg_` attribute names. -/
theorem argAttr_inj {k1 k2 : String} (h : argAttr k1 = argAttr k2) : k1 = k2 := by
  have hd := congrArg String.data h
  simp only [argAttr, String.data_append] at hd
  exact String.ext (List.append_cancel_left hd)

/-- No `arg_` attribute name collides with the reserved name `cmdline`. -/
theorem argAttr_ne_cmdline (k : String) : argAttr k ≠ "cmdline" := by
  intro h
  have hh := congrArg (fun s => s.data.head?) h
  simp only at hh
  rw [argAttr_head] at hh
  exact absurd hh (by decide)

/-- No `arg_` attribute name collides with the reserved name `pwd`. -/
theorem argAttr_ne_pwd (k : String) : argAttr k ≠ "pwd" := by
  intro h
  have hh := congrArg (fun s => s.data.head?) h
  simp only at hh
  rw [argAttr_head] at hh
  exact absurd hh (by decide)

/-- No `arg_` attribute name collides with the reserved name `datetime`. -/
theorem argAttr_ne_datetime (k : String) : argAttr k ≠ "datetime" := by
  intro h
  have hh := congrArg (fun s => s.data.head?) h
  simp only at hh
  rw [argAttr_head] at hh
  exact absurd hh (by decide)

/-- Attributes whose name is not set by any non-null entry are untouched by
the arguments loop. -/
theorem argsLoop_other {l : List (String × Option AVal)} {q : String} :
    ∀ {a : Attrs}, (∀ p ∈ l, ∀ v : AVal, p.2 = some v → argAttr p.1 ≠ q) →
      argsLoop l a q = a q := by
  induction l with
  | nil => intro a _; rfl
  | cons p rest ih =>
    intro a hq
    obtain ⟨k, v⟩ := p
    cases v with
    | none => exact ih (fun p hp v hv => hq p (List.mem_cons_of_mem _ hp) v hv)
    | some v =>
      have h1 : argsLoop ((k, some v) :: rest) a
          = argsLoop rest (setAttr a (argAttr k) v) := rfl
      rw [h1, ih (fun p hp v hv => hq p (List.mem_cons_of_mem _ hp) v hv)]
      have hne : argAttr k ≠ q := hq (k, some v) (List.mem_cons_self _ _) v rfl
      simp only [setAttr]
      rw [if_neg (fun h => hne h.symm)]

/-- With nodup argument names, a non-null entry is recorded with its value. -/
theorem argsLoop_some {l : List (String × Option AVal)} :
    ∀ {a : Attrs} {k : String} {v : AVal},
      (l.map Prod.fst).Nodup → (k, some v) ∈ l →
      argsLoop l a (argAttr k) = some v := by
  induction l with
  | nil => intro a k v _ h; cases h
  | cons p rest ih =>
    intro a k v hnd hmem
    obtain ⟨k', v'⟩ := p
    simp only [List.map_cons, List.nodup_cons] at hnd
    rcases List.mem_cons.mp hmem with heq | hmem'
    · injection heq with hk hv
      subst hk
      subst hv
      have h1 : argsLoop ((k, some v) :: rest) a
          = argsLoop rest (setAttr a (argAttr k) v) := rfl
      rw [h1, argsLoop_other ?hq]
      · simp [setAttr]
      case hq =>
        intro p hp w _ hcontra
        refine absurd ?_ hnd.1
        rw [← argAttr_inj hcontra]
        exact List.mem_map_of_mem Prod.fst hp
    · cases v' with
      | none => exact ih hnd.2 hmem'
      | some w =>
        have h1 : argsLoop ((k', some w) :: rest) a
            = argsLoop rest (setAttr a (argAttr k') w) := rfl
        rw [h1]
        exact ih hnd.2 hmem'

/-- Claim C6: for every group and argument record (with distinct option
names), `store_args` sets the group attributes `cmdline` (the joined argument
vector), `pwd` (the working directory) and `datetime` (the captured
timestamp), records `arg_<name>` with the entry's value for exactly the
non-null entries, and never creates `arg_<name>` for a null entry: that
attribute keeps its previous value, in particular stays absent when it was
absent. -/
theorem store_args_spec (env : Env) (argsRec : List (String × Option AVal))
    (a0 : Attrs) (hnd : (argsRec.map Prod.fst).Nodup) :
    store_args env argsRec a0 "cmdline"
        = some (.str (String.intercalate " " env.argv)) ∧
    store_args env argsRec a0 "pwd" = some (.str env.pwd) ∧
    store_args env argsRec a0 "datetime" = some (.str env.datetime) ∧
    (∀ k v, (k, some v) ∈ argsRec →
      store_args env argsRec a0 (argAttr k) = some v) ∧
    (∀ k, (k, none) ∈ argsRec →
      store_args env argsRec a0 (argAttr k) = a0 (argAttr k)) := by
  refine ⟨?_, ?_, ?_, ?_, ?_⟩
  · unfold store_args
    rw [argsLoop_other (fun p _ v _ => argAttr_ne_cmdline p.1)]
    simp only [setAttr]
    rw [if_neg (by decide), if_neg (by decide)]
    simp
  · unfold store_args
    rw [argsLoop_other (fun p _ v _ => argAttr_ne_pwd p.1)]
    simp only [setAttr]
    rw [if_neg (by decide)]
    simp
  · unfold store_args
    rw [argsLoop_other (fun p _ v _ => argAttr_ne_datetime p.1)]
    simp only [setAttr]
    simp
  · intro k v hmem
    unfold store_args
    exact argsLoop_some hnd hmem
  · intro k hmem
    unfold store_args
    rw [argsLoop_other ?hq]
    · simp only [setAttr]
      rw [if_neg (argAttr_ne_datetime k), if_neg (argAttr_ne_pwd k),
        if_neg (argAttr_ne_cmdline k)]
    case hq =>
      intro p hp w hw hcontra
      have hpk : p = (k, none) :=
        List.inj_on_of_nodup_map hnd hp hmem (argAttr_inj hcontra)
      rw [hpk] at hw
      cases hw

/-- Witness for C6: a record with one non-null and one null option on an
empty attribute map. -/
theorem store_args_spec_witness :
    store_args envW [("alpha", some (.int 1)), ("beta", none)] noAttrs "cmdline"
        = some (.str "horton-script.py in.cube out.h5") ∧
    store_args envW [("alpha", some (.int 1)), ("beta", none)] noAttrs
        (argAttr "alpha") = some (.int 1) ∧
    store_args envW [("alpha", some (.int 1)), ("beta", none)] noAttrs
        (argAttr "beta") = none := by
  have h := store_args_spec envW [("alpha", some (.int 1)), ("beta", none)]
    noAttrs (by decide)
  refine ⟨?_, ?_, ?_⟩
  · rw [h.1]
    rfl
  · exact h.2.2.2.1 "alpha" (.int 1) (by decide)
  · rw [h.2.2.2.2 "beta" (by decide)]
    rfl

/-- Characterization of the debug loop: when the synthesized names of the
non-skipped cache keys are pairwise distinct, no collision error occurs and
the loop appends exactly the non-skipped entries, in cache order. -/
theorem debugFold_ok {names : List String} {load : List String → Int} :
    ∀ (keys : List (List String)) (dcs : List (String × Node)),
      ((keys.filter (fun k => !names.contains (debugName k))).map debugName).Nodup →
      (∀ k ∈ keys, names.contains (debugName k) = false →
        dcs.any (fun p => p.1 == debugName k) = false) →
      debugFold names load dcs keys
        = .ok (dcs ++ (keys.filter (fun k => !names.contains (debugName k))).map
            (fun k => (debugName k, .dataset (load k)))) := by
  intro keys
  induction keys with
  | nil =>
    intro dcs _ _
    simp [debugFold]
  | cons k ks ih =>
    intro dcs hnd hdisj
    by_cases hm : debugName k ∈ names
    · have hc : names.contains (debugName k) = true := by simpa using hm
      have h1 : debugFold names load dcs (k :: ks) = debugFold names load dcs ks := by
        simp [debugFold, hm]
      have hfe : (k :: ks).filter (fun q => !names.contains (debugName q))
          = ks.filter (fun q => !names.contains (debugName q)) := by
        simp [List.filter_cons, hm]
      rw [h1, hfe]
      exact ih dcs (hfe ▸ hnd)
        (fun q hq hcq => hdisj q (List.mem_cons_of_mem _ hq) hcq)
    · have hcf : names.contains (debugName k) = false := by simpa using hm
      have hany : dcs.any (fun p => p.1 == debugName k) = false :=
        hdisj k (List.mem_cons_self _ _) hcf
      have hfe : (k :: ks).filter (fun q => !names.contains (debugName q))
          = k :: ks.filter (fun q => !names.contains (debugName q)) := by
        simp [List.filter_cons, hm]
      rw [hfe] at hnd
      simp only [List.map_cons, List.nodup_cons] at hnd
      have h1 : debugFold names load dcs (k :: ks)
          = debugFold names load (dcs ++ [(debugName k, .dataset (load k))]) ks := by
        simp [debugFold, hm, hany]
      have hdisj2 : ∀ q ∈ ks, names.contains (debugName q) = false →
          ((dcs ++ [(debugName k, Node.dataset (load k))]).any
            (fun p => p.1 == debugName q)) = false := by
        intro q hq hcq
        rw [List.any_append]
        have hq1 : dcs.any (fun p => p.1 == debugName q) = false :=
          hdisj q (List.mem_cons_of_mem _ hq) hcq
        have hq2 : debugName q
            ∈ (ks.filter (fun r => !names.contains (debugName r))).map debugName := by
          refine List.mem_map_of_mem debugName ?_
          rw [List.mem_filter]
          exact ⟨hq, by rw [hcq]; rfl⟩
        have hne : (debugName k == debugName q) = false := by
          refine beq_eq_false_iff_ne.mpr ?_
          intro hkq
          exact hnd.1 (hkq ▸ hq2)
        simp [hq1, hne]
      rw [h1, ih _ hnd.2 hdisj2, hfe]
      simp

/-- Claim C7: the debug block run by a debug-enabled `write_part_output`
(`debugDump`, executed exactly when `args.debug` is set) deletes any
pre-existing `debug` child of the target group, creates a fresh `debug`
subgroup, and its children are exactly the cache entries whose synthesized
name (key components joined by underscore) is NOT among the caller-supplied
`names`: each such entry is written with its loaded value, and an entry whose
synthesized name collides with `names` is silently skipped, never created or
overwritten.  Distinct synthesized names among the non-skipped keys are
assumed (h5py faults on a duplicate creation otherwise). -/
theorem debug_dump_spec (cacheKeys : List (List String))
    (load : List String → Int) (names : List String) (f : File) (g : String)
    (cs : List (String × Node)) (ats : Attrs)
    (hg : getRoot f g = some (.group cs ats))
    (hnd : ((cacheKeys.filter (fun k => !names.contains (debugName k))).map
      debugName).Nodup) :
    debugDump cacheKeys load names f g
      = .ok (setRoot f g (.group
          ((cs.filter (fun p => p.1 != "debug")) ++
            [("debug", .group (debugChildrenSpec cacheKeys load names) noAttrs)])
          ats)) ∧
    (∀ k ∈ cacheKeys, names.contains (debugName k) = false →
      (debugName k, Node.dataset (load k))
        ∈ debugChildrenSpec cacheKeys load names) ∧
    (∀ k ∈ cacheKeys, names.contains (debugName k) = true →
      ∀ n, (debugName k, n) ∉ debugChildrenSpec cacheKeys load names) := by
  refine ⟨?_, ?_, ?_⟩
  · unfold debugDump
    rw [hg]
    dsimp only
    rw [debugFold_ok cacheKeys [] hnd (fun k _ _ => rfl)]
    simp [debugChildrenSpec]
  · intro k hk hck
    unfold debugChildrenSpec
    refine List.mem_map_of_mem _ ?_
    rw [List.mem_filter]
    exact ⟨hk, by rw [hck]; rfl⟩
  · intro k hk hck n hmem
    unfold debugChildrenSpec at hmem
    rw [List.mem_map] at hmem
    obtain ⟨q, hq, hqe⟩ := hmem
    rw [List.mem_filter] at hq
    have hqn : debugName q = debugName k := congrArg Prod.fst hqe
    have : names.contains (debugName q) = false := by
      have := hq.2
      simpa using this
    rw [hqn, hck] at this
    cases this

/-- A file whose group `res` holds a data child `x` and a stale `debug`
subgroup from an earlier debug-enabled write. -/
def fDT : File :=
  [("res", .group [("x", .dataset 7),
    ("debug", .group [("old", .dataset 0)] noAttrs)] noAttrs)]

/-- Witness for C7: cache keys `x` (collides with `names`, skipped), `a, b`
(written as `a_b`) and `y` (written); the stale `debug` child is replaced. -/
theorem debug_dump_spec_witness :
    debugDump [["x"], ["a", "b"], ["y"]] (fun _ => (3 : Int)) ["x"] fDT "res"
      = .ok [("res", .group [("x", .dataset 7),
          ("debug", .group [("a_b", .dataset 3), ("y", .dataset 3)] noAttrs)]
          noAttrs)] ∧
    ("a_b", Node.dataset 3)
      ∈ debugChildrenSpec [["x"], ["a", "b"], ["y"]] (fun _ => (3 : Int)) ["x"] ∧
    ("x", Node.dataset 3)
      ∉ debugChildrenSpec [["x"], ["a", "b"], ["y"]] (fun _ => (3 : Int)) ["x"] := by
  have h := debug_dump_spec [["x"], ["a", "b"], ["y"]] (fun _ => (3 : Int)) ["x"]
    fDT "res" [("x", .dataset 7), ("debug", .group [("old", .dataset 0)] noAttrs)]
    noAttrs rfl (by decide)
  refine ⟨?_, ?_, ?_⟩
  · rw [h.1]
    rfl
  · exact h.2.1 ["a", "b"] (by decide) (by decide)
  · exact h.2.2 ["x"] (by decide) (by decide) (Node.dataset 3)

/-- The colon split never produces an empty part list. -/
theorem splitColon_ne_nil : ∀ s : List Char, splitColon s ≠ [] := by
  intro s
  cases s with
  | nil => simp [splitColon]
  | cons c rest =>
    rw [splitColon]
    cases splitColon rest with
    | nil => simp
    | cons p ps => by_cases hc : c = ':' <;> simp [hc]

/-- The colon split has one more part than there are colons. -/
theorem splitColon_length :
    ∀ s : List Char, (splitColon s).length = countColon s + 1 := by
  intro s
  induction s with
  | nil => rfl
  | cons c rest ih =>
    rw [splitColon, countColon]
    cases hsp : splitColon rest with
    | nil => exact absurd hsp (splitColon_ne_nil rest)
    | cons p ps =>
      rw [hsp] at ih
      dsimp only
      by_cases hc : c = ':'
      · subst hc
        rw [if_pos rfl, if_pos rfl]
        simp only [List.length_cons] at ih ⊢
        omega
      · rw [if_neg hc, if_neg hc]
        simp only [List.length_cons] at ih ⊢
        omega

/-- No part produced by the colon split contains a colon. -/
theorem splitColon_no_colon :
    ∀ (s : List Char), ∀ p ∈ splitColon s, ':' ∉ p := by
  intro s
  induction s with
  | nil =>
    intro p hp
    simp only [splitColon, List.mem_singleton] at hp
    subst hp
    simp
  | cons c rest ih =>
    intro p hp
    rw [splitColon] at hp
    cases hsp : splitColon rest with
    | nil => exact absurd hsp (splitColon_ne_nil rest)
    | cons q qs =>
      rw [hsp] at hp
      dsimp only at hp
      by_cases hc : c = ':'
      · rw [if_pos hc] at hp
        rcases List.mem_cons.mp hp with rfl | hp2
        · simp
        · exact ih p (hsp ▸ hp2)
      · rw [if_neg hc] at hp
        rcases List.mem_cons.mp hp with rfl | hp2
        · intro hcol
          rcases List.mem_cons.mp hcol with hcc | hcq
          · exact hc hcc.symm
          · exact ih q (hsp ▸ List.mem_cons_self q qs) hcq
        · exact ih p (hsp ▸ List.mem_cons_of_mem q hp2)

/-- Joining the colon split with colons restores the original characters. -/
theorem joinColon_splitColon : ∀ s : List Char, joinColon (splitColon s) = s := by
  intro s
  induction s with
  | nil => rfl
  | cons c rest ih =>
    rw [splitColon]
    cases hsp : splitColon rest with
    | nil => exact absurd hsp (splitColon_ne_nil rest)
    | cons q qs =>
      rw [hsp] at ih
      dsimp only
      by_cases hc : c = ':'
      · rw [if_pos hc]
        simp only [joinColon, List.nil_append]
        rw [ih, hc]
      · rw [if_neg hc]
        cases qs with
        | nil =>
          simp only [joinColon] at ih ⊢
          rw [ih]
        | cons q2 qs2 =>
          simp only [joinColon] at ih ⊢
          rw [List.cons_append, ih]

/-- Claim C8: with the path optional a location containing exactly one colon
parses into its two colon-free parts, a location with no colon parses into
the location itself paired with the root path, and more than one colon is a
`ValueError`; with the path required, anything but exactly one colon is a
`ValueError`. -/
theorem parse_h5_spec (s : List Char) (name : String) :
    (countColon s = 1 →
      ∃ a b, (∀ opt, parse_h5 s name opt = .ok (a, b)) ∧
        s = a ++ ':' :: b ∧ ':' ∉ a ∧ ':' ∉ b) ∧
    (countColon s = 0 →
      parse_h5 s name true = .ok (s, ['/']) ∧
      ∃ m, parse_h5 s name false = .error (.valueError m)) ∧
    (2 ≤ countColon s →
      (∃ m, parse_h5 s name true = .error (.valueError m)) ∧
      (∃ m, parse_h5 s name false = .error (.valueError m))) := by
  refine ⟨?_, ?_, ?_⟩
  · intro h1
    have hlen := splitColon_length s
    rw [h1] at hlen
    cases hsp : splitColon s with
    | nil => rw [hsp] at hlen; simp at hlen
    | cons a rest =>
      cases rest with
      | nil => rw [hsp] at hlen; simp at hlen
      | cons b rest2 =>
        cases rest2 with
        | cons x rest3 =>
          rw [hsp] at hlen
          simp at hlen
        | nil =>
          refine ⟨a, b, ?_, ?_, ?_, ?_⟩
          · intro opt
            cases opt <;> simp [parse_h5, h1, hsp]
          · have hj := joinColon_splitColon s
            rw [hsp] at hj
            simp only [joinColon] at hj
            exact hj.symm
          · exact splitColon_no_colon s a (by rw [hsp]; simp)
          · exact splitColon_no_colon s b (by rw [hsp]; simp)
  · intro h0
    constructor
    · simp [parse_h5, h0]
    · exact ⟨"The hdf5 argument " ++ name ++ " must contain one colon.",
        by simp [parse_h5, h0]⟩
  · intro h2
    have h1 : countColon s ≠ 1 := by omega
    have h0 : countColon s ≠ 0 := by omega
    refine ⟨⟨"The hdf5 argument " ++ name ++ " must contain at most one colon.",
        by simp [parse_h5, h1, h0]⟩,
      ⟨"The hdf5 argument " ++ name ++ " must contain one colon.",
        by simp [parse_h5, h1]⟩⟩

/-- Witness for C8: a one-colon location splits into its two parts, a
colon-free location gets the root path, a two-colon location and a colon-free
location with the path required are parse errors. -/
theorem parse_h5_spec_witness :
    parse_h5 ['f', ':', 'g'] "arg" true = .ok (['f'], ['g']) ∧
    parse_h5 ['f'] "arg" true = .ok (['f'], ['/']) ∧
    (∃ m, parse_h5 ['a', ':', 'b', ':', 'c'] "arg" true
      = .error (.valueError m)) ∧
    (∃ m, parse_h5 ['f'] "arg" false = .error (.valueError m)) :=
  ⟨rfl,
   ((parse_h5_spec ['f'] "arg").2.1 (by decide)).1,
   ((parse_h5_spec ['a', ':', 'b', ':', 'c'] "arg").2.2 (by decide)).1,
   ((parse_h5_spec ['f'] "arg").2.1 (by decide)).2⟩

/-- Reading back a just-written root link. -/
theorem getRoot_setRoot_self :
    ∀ (f : File) (g : String) (n : Node), getRoot (setRoot f g n) g = some n := by
  intro f g n
  induction f with
  | nil => simp [setRoot, getRoot]
  | cons p f ih =>
    by_cases h : p.1 = g
    · simp [setRoot, getRoot, h]
    · simp [setRoot, getRoot, h, ih]

/-- Overwriting a root link twice keeps only the second write. -/
theorem setRoot_setRoot_self :
    ∀ (f : File) (g : String) (n m : Node),
      setRoot (setRoot f g n) g m = setRoot f g m := by
  intro f g n m
  induction f with
  | nil => simp [setRoot]
  | cons p f ih =>
    by_cases h : p.1 = g
    · simp [setRoot, h]
    · simp [setRoot, h, ih]

/-- Writing a link back with its current node is the identity. -/
theorem setRoot_getRoot_self :
    ∀ {f : File} {g : String} {n : Node},
      getRoot f g = some n → setRoot f g n = f := by
  intro f
  induction f with
  | nil =>
    intro g n h
    simp [getRoot] at h
  | cons p f ih =>
    intro g n h
    obtain ⟨pk, pv⟩ := p
    by_cases hp : pk = g
    · subst hp
      simp only [getRoot] at h
      simp at h
      simp [setRoot, h]
    · simp only [getRoot] at h
      rw [if_neg hp] at h
      simp only [setRoot]
      rw [if_neg hp, ih h]

/-- The dump loop with a failing serialization: the entries before the
failure are committed into the group (in order), the failing entry and
everything after it are not, and the raised error carries the partially
replaced state. -/
theorem dumpAll_fail {ser : Int → Except PyErr Node} {serN : Int → Node}
    {g : String} :
    ∀ (pre : List (String × Int)) (kv : String × Int)
      (post : List (String × Int)) (f : File) (cs : List (String × Node))
      (ats : Attrs) (e : PyErr),
      getRoot f g = some (.group cs ats) →
      (∀ p ∈ pre, ser p.2 = .ok (serN p.2)) →
      (pre.map Prod.fst).Nodup →
      (∀ p ∈ pre, cs.any (fun q => q.1 == p.1) = false) →
      ser kv.2 = .error e →
      dumpAll ser g f (pre ++ kv :: post)
        = .error (e, setRoot f g
            (.group (cs ++ pre.map (fun p => (p.1, serN p.2))) ats)) := by
  intro pre
  induction pre with
  | nil =>
    intro kv post f cs ats e hg _ _ _ hfail
    obtain ⟨k, v⟩ := kv
    simp only [List.nil_append, dumpAll, hfail]
    rw [List.map_nil, List.append_nil, setRoot_getRoot_self hg]
  | cons p pre ih =>
    intro kv post f cs ats e hg hpre hnd hdisj hfail
    obtain ⟨k, v⟩ := p
    have hk : ser v = .ok (serN v) := hpre (k, v) (List.mem_cons_self _ _)
    have hanyk : cs.any (fun q => q.1 == k) = false :=
      hdisj (k, v) (List.mem_cons_self _ _)
    simp only [List.map_cons, List.nodup_cons] at hnd
    have hstep : dumpAll ser g f (((k, v) :: pre) ++ kv :: post)
        = dumpAll ser g (setRoot f g (.group (cs ++ [(k, serN v)]) ats))
            (pre ++ kv :: post) := by
      simp [dumpAll, dumpInto, hk, hg, hanyk]
    have hdisj2 : ∀ p ∈ pre,
        ((cs ++ [(k, serN v)]).any (fun q => q.1 == p.1)) = false := by
      intro p hp
      rw [List.any_append]
      have h1 := hdisj p (List.mem_cons_of_mem _ hp)
      have hne : (k == p.1) = false := by
        refine beq_eq_false_iff_ne.mpr ?_
        intro hkp
        refine absurd ?_ hnd.1
        rw [hkp]
        exact List.mem_map_of_mem Prod.fst hp
      simp [h1, hne]
    rw [hstep, ih kv post (setRoot f g (.group (cs ++ [(k, serN v)]) ats))
      (cs ++ [(k, serN v)]) ats e (getRoot_setRoot_self f g _)
      (fun p hp => hpre p (List.mem_cons_of_mem _ hp)) hnd.2 hdisj2 hfail]
    rw [setRoot_setRoot_self]
    simp

/-- Claim C9: when serialization of the k-th named value fails during a write
(shown for `write_script_output` into a not-yet-existing group; the dump loop
`dumpAll` is shared verbatim with `write_part_output`), there is no rollback:
values at positions before k are already committed as children of the group,
values after k are never written, provenance stamping never runs, and the
failure propagates carrying the partially replaced group. -/
theorem write_script_output_no_rollback (ser : Int → Except PyErr Node)
    (serN : Int → Node) (env : Env) (argsRec : List (String × Option AVal))
    (g : String) (pre post : List (String × Int)) (kv : String × Int)
    (e : PyErr) (f0 : File)
    (hfresh : memRoot f0 g = false)
    (hpre : ∀ p ∈ pre, ser p.2 = .ok (serN p.2))
    (hnd : (pre.map Prod.fst).Nodup)
    (hfail : ser kv.2 = .error e) :
    write_script_output ser env g (pre ++ kv :: post) argsRec f0
      = .error (e, setRoot f0 g
          (.group (pre.map (fun p => (p.1, serN p.2))) noAttrs)) ∧
    childNames (setRoot f0 g
        (.group (pre.map (fun p => (p.1, serN p.2))) noAttrs)) g
      = some (pre.map Prod.fst) := by
  have hdump := @dumpAll_fail ser serN g pre kv post
    (setRoot f0 g (.group [] noAttrs)) [] noAttrs e
    (getRoot_setRoot_self f0 g _) hpre hnd (fun p _ => rfl) hfail
  constructor
  · unfold write_script_output
    rw [hfresh]
    simp only [Bool.false_eq_true, if_false]
    rw [hdump]
    rw [setRoot_setRoot_self]
    simp
  · unfold childNames
    rw [getRoot_setRoot_self]
    simp [List.map_map]

/-- Witness for C9: dumping `a = 1` succeeds, the serializer rejects
`b = 99`, `z = 5` is never attempted; the error state holds exactly the
child `a`. -/
theorem write_script_output_no_rollback_witness :
    write_script_output serW envW "res" [("a", 1), ("b", 99), ("z", 5)] [] []
      = .error (.serializationError "unsupported value",
          setRoot [] "res" (.group [("a", .dataset 1)] noAttrs)) ∧
    childNames (setRoot [] "res" (.group [("a", .dataset 1)] noAttrs)) "res"
      = some ["a"] := by
  have h := write_script_output_no_rollback serW Node.dataset envW [] "res"
    [("a", 1)] [("z", 5)] ("b", 99) (.serializationError "unsupported value") []
    rfl (by
      intro p hp
      rw [List.mem_singleton] at hp
      subst hp
      rfl)
    (by decide) rfl
  exact h

end Horton
